import Mathlib

/-!
Verification of the LeetCode helper library
(`.github/leetcode-runner/helpers/python/leetcode_helper.py`).

The Python module is shallowly embedded here.  Scalars are modelled over
ASCII character classes (ASCII whitespace, ASCII lowering); beyond ASCII the
digit model also covers the non-decimal digit characters (superscripts and
subscripts) on which `str.isdigit()` and `int()` disagree, since that
disagreement is observable behaviour of the program; decimal digits of other
scripts are out of the model's scope, and universal statements about the
digit path are restricted to ASCII text, where the model is exact.  Python
values
flowing through the parse/format functions are modelled by the closed tagged
union `Value`.  Functions that can raise in Python return `Option`.
`json.loads` is modelled by a recursive-descent decoder faithful to the JSON
grammar Python's `json` module accepts (objects, arrays, strings, numbers,
literals, `NaN`/`Infinity`), with a fuel argument that is always sufficient
for the input length.  `json.dumps` is modelled with Python's default
separators (`", "` between sequence items).  Floats are carried as their
source literal in `Value.vFloat`; no claim inspects float arithmetic.
-/

/-! ### Character-level primitives (ASCII model of Python's `str` methods) -/

/-- ASCII whitespace stripped by Python's `str.strip()`. -/
def pySpace (c : Char) : Bool :=
  c = ' ' || c = '\t' || c = '\n' || c = '\r' || c = '\x0b' || c = '\x0c'

/-- Drop trailing characters satisfying `pySpace` (the `rstrip` half). -/
def rstripL (cs : List Char) : List Char :=
  (cs.reverse.dropWhile pySpace).reverse

/-- Python `str.strip()` on a character list: leading strip then trailing strip. -/
def pyStripL (cs : List Char) : List Char :=
  rstripL (cs.dropWhile pySpace)

/-- Python `str.strip()`. -/
def pyStrip (s : String) : String :=
  ⟨pyStripL s.data⟩

/-- Python `str.lower()` on a character list (ASCII model). -/
def pyLowerL (cs : List Char) : List Char :=
  cs.map Char.toLower

/-- Digit characters Python's `str.isdigit()` accepts but `int()` rejects
(`Numeric_Type=Digit`): the Latin-1 and superscript/subscript digits.
Decimal digits of non-Latin scripts (category `Nd`, e.g. Arabic-Indic),
which both `isdigit` and `int()` accept, are outside the model; every
universal statement below about the auto digit path is therefore restricted
to ASCII text, where the model is exact. -/
def pyNonDecimalDigit (c : Char) : Bool :=
  ['¹', '²', '³', '⁰', '⁴', '⁵', '⁶', '⁷', '⁸', '⁹',
   '₀', '₁', '₂', '₃', '₄', '₅', '₆', '₇', '₈', '₉'].contains c

/-- One character of Python's `str.isdigit()`: an ASCII decimal digit or one
of the non-decimal digit characters above. -/
def pyIsDigitChar (c : Char) : Bool :=
  c.isDigit || pyNonDecimalDigit c

/-- Python `str.isdigit()`: nonempty and all digit characters. -/
def pyIsDigitsL (cs : List Char) : Bool :=
  !cs.isEmpty && cs.all pyIsDigitChar

/-- The digit strings `int()` converts (ASCII model): nonempty, all ASCII
decimal digits.  This is strictly narrower than `pyIsDigitsL`: a string of
superscript digits passes `str.isdigit()` yet `int()` raises on it. -/
def pyDecDigitsL (cs : List Char) : Bool :=
  !cs.isEmpty && cs.all Char.isDigit

/-- ASCII character test, used to delimit where the scalar model is exact. -/
def pyAsciiChar (c : Char) : Bool :=
  c.toNat < 128

/-- Python `str.split(',')`: split at every comma; always at least one token. -/
def splitComma : List Char → List (List Char)
  | [] => [[]]
  | c :: rest =>
    if c = ',' then [] :: splitComma rest
    else
      match splitComma rest with
      | t :: ts => (c :: t) :: ts
      | [] => [[c]]

/-! ### Data structures (`ListNode`, `TreeNode`) -/

/-- Node of a singly linked list (`class ListNode`); `next` is nullable. -/
inductive ListNode where
  | mk (val : Int) (next : Option ListNode)

/-- Node of a binary tree (`class TreeNode`); children are nullable. -/
inductive TreeNode where
  | mk (val : Int) (left : Option TreeNode) (right : Option TreeNode)

/-- The tagged union of Python values the helper passes around:
integers, floats (kept as their literal), strings, booleans, `None`,
lists, dicts, and the two node types. -/
inductive Value where
  | vNull
  | vBool (b : Bool)
  | vInt (n : Int)
  | vFloat (lit : String)
  | vStr (s : String)
  | vList (elems : List Value)
  | vDict (pairs : List (String × Value))
  | vLinked (head : ListNode)
  | vTree (root : TreeNode)

/-- Runtime kind of a `Value`, for classification statements. -/
inductive VKind where
  | null | bool | int | float | str | list | dict | linked | tree
deriving DecidableEq

/-- Kind tag of a value. -/
def Value.kind : Value → VKind
  | .vNull => .null
  | .vBool _ => .bool
  | .vInt _ => .int
  | .vFloat _ => .float
  | .vStr _ => .str
  | .vList _ => .list
  | .vDict _ => .dict
  | .vLinked _ => .linked
  | .vTree _ => .tree

/-! ### Linked-list conversions (`list_to_linked_list`, `linked_list_to_list`) -/

/-- `list_to_linked_list`: empty list gives `None`; otherwise a chain holding
the elements in order. -/
def list_to_linked_list : List Int → Option ListNode
  | [] => none
  | v :: rest => some (.mk v (list_to_linked_list rest))

/-- `linked_list_to_list`: walk the chain collecting values until `next` is null. -/
def linked_list_to_list : Option ListNode → List Int
  | none => []
  | some (.mk v nx) => v :: linked_list_to_list nx

/-! ### Tree conversions (`list_to_tree`, `tree_to_list`)

`list_to_tree` keeps a FIFO queue of already-created nodes and hands each
dequeued node the next two input entries as left/right children, creating and
enqueueing a child only when its entry is not null; it stops when the queue or
the input is exhausted.  The imperative child assignment is rendered
functionally by `step`: `step pending xs` returns the fully built subtrees of
the queued node values `pending`, drawing children entries from `xs`; a
created child's subtree appears at the back of the recursive result, exactly
where the FIFO discipline puts it. -/

/-- The values of the non-null entries, i.e. the nodes the Python queue holds. -/
def realsOf (q : List (Option Int)) : List Int :=
  q.filterMap id

/-- Number of non-null entries. -/
def countSome (q : List (Option Int)) : Nat :=
  (realsOf q).length

/-- Build the subtrees of the queued values `pending` from the level-order
entries `xs` (two entries per dequeued node: left then right; a null entry
creates no child; a missing entry means the input ran out). -/
def step : List Int → List (Option Int) → List TreeNode
  | [], _ => []
  | v :: rest, [] => .mk v none none :: step rest []
  | v :: rest, [x1] =>
    let built := step (rest ++ x1.toList) []
    .mk v (if x1.isSome then built.get? rest.length else none) none
      :: built.take rest.length
  | v :: rest, x1 :: x2 :: xs₂ =>
    let built := step (rest ++ x1.toList ++ x2.toList) xs₂
    .mk v (if x1.isSome then built.get? rest.length else none)
          (if x2.isSome then built.get? (rest.length + x1.toList.length) else none)
      :: built.take rest.length
termination_by p xs => 4 * xs.length + 2 * p.length
decreasing_by
  · simp
  · cases x1 <;> simp [Option.toList] <;> try omega
  · cases x1 <;> cases x2 <;> simp [Option.toList] <;> try omega

/-- `list_to_tree`: empty input or null first entry gives `None`; otherwise the
first entry is the root and `step` assigns the remaining entries. -/
def list_to_tree : List (Option Int) → Option TreeNode
  | [] => none
  | none :: _ => none
  | some v :: rest => (step [v] rest).head?

/-- Node count of a nullable tree, used as the queue measure for `tree_to_list`. -/
def sizeOT : Option TreeNode → Nat
  | none => 0
  | some (.mk _ l r) => 1 + sizeOT l + sizeOT r

/-- The breadth-first queue loop of `tree_to_list`: dequeue; a null placeholder
emits `null` and is not expanded, a node emits its value and enqueues both
children (even when null, to preserve level-order positions). -/
def serQ : List (Option TreeNode) → List (Option Int)
  | [] => []
  | none :: q => none :: serQ q
  | some (.mk v l r) :: q => some v :: serQ (q ++ [l, r])
termination_by q => 2 * (q.map sizeOT).sum + q.length
decreasing_by
  · simp; omega
  · simp [sizeOT]; omega

/-- The trailing `while result and result[-1] is None: result.pop()` loop. -/
def trimTrailingNone (l : List (Option Int)) : List (Option Int) :=
  (l.reverse.dropWhile Option.isNone).reverse

/-- `tree_to_list`: `None` gives `[]`; otherwise breadth-first serialisation
followed by trimming of the trailing nulls. -/
def tree_to_list : Option TreeNode → List (Option Int)
  | none => []
  | some t => trimTrailingNone (serQ [some t])

/-- Proof auxiliary: re-insert the null placeholders of the slot list `q` into
a list of built trees, so a real-node-only queue result can be compared with
the placeholder-carrying queue `serQ` consumes. -/
def mergeBack : List (Option Int) → List TreeNode → List (Option TreeNode)
  | [], _ => []
  | none :: q, ts => none :: mergeBack q ts
  | some _ :: q, [] => none :: mergeBack q []
  | some _ :: q, t :: ts => some t :: mergeBack q ts

/-- Slot-count check: `okCount n xs` walks `xs` with `n` available child
slots; every entry consumes a slot and every non-null entry opens two more.
`okCount 1 xs` says every element of `xs` corresponds to a child slot of an
earlier non-null node (the first element taking the root slot). -/
def okCount : Nat → List (Option Int) → Bool
  | _, [] => true
  | n, x :: rest =>
    if n = 0 then false else okCount (n - 1 + (if x.isSome then 2 else 0)) rest

/-- A level-order sequence represents a valid tree shape. -/
def validShape (xs : List (Option Int)) : Bool :=
  okCount 1 xs

/-! ### The `json.loads` model

A recursive-descent decoder for the grammar Python's `json.loads` accepts:
objects, arrays, strings with escapes, strict numbers (no leading zeros,
optional fraction/exponent), `true`/`false`/`null`, and Python's non-standard
`NaN`/`Infinity`/`-Infinity`.  Mutual recursion is bounded by a fuel that the
entry point sets to twice the input length plus two, which is always enough
because at least one character is consumed for every two nested calls. -/

/-- JSON insignificant whitespace (space, tab, newline, carriage return). -/
def jsonWs (c : Char) : Bool :=
  c = ' ' || c = '\t' || c = '\n' || c = '\r'

/-- Skip insignificant whitespace. -/
def skipWs (cs : List Char) : List Char :=
  cs.dropWhile jsonWs

/-- Value of a hexadecimal digit. -/
def hexVal (c : Char) : Option Nat :=
  if c.isDigit then some (c.toNat - 48)
  else if 'a' ≤ c ∧ c ≤ 'f' then some (c.toNat - 87)
  else if 'A' ≤ c ∧ c ≤ 'F' then some (c.toNat - 55)
  else none

/-- Consume an expected literal tail, e.g. `rue` after `t`. -/
def eatLit : List Char → List Char → Option (List Char)
  | [], cs => some cs
  | _ :: _, [] => none
  | l :: ls, c :: cs => if c = l then eatLit ls cs else none

/-- JSON string body after the opening quote: content and remaining input.
Control characters are rejected (strict mode); escapes are translated. -/
def jstr : List Char → Option (List Char × List Char)
  | [] => none
  | '"' :: rest => some ([], rest)
  | '\\' :: 'u' :: h1 :: h2 :: h3 :: h4 :: rest => do
    let a ← hexVal h1; let b ← hexVal h2; let c ← hexVal h3; let d ← hexVal h4
    let (content, r) ← jstr rest
    pure (Char.ofNat (((a * 16 + b) * 16 + c) * 16 + d) :: content, r)
  | '\\' :: e :: rest => do
    let c ← match e with
      | '"' => some '"'
      | '\\' => some '\\'
      | '/' => some '/'
      | 'b' => some '\x08'
      | 'f' => some '\x0c'
      | 'n' => some '\n'
      | 'r' => some '\r'
      | 't' => some '\t'
      | _ => none
    let (content, r) ← jstr rest
    pure (c :: content, r)
  | c :: rest => do
    if c.toNat < 32 then none
    else
      let (content, r) ← jstr rest
      pure (c :: content, r)

/-- Longest digit run at the front. -/
def spanDigits (cs : List Char) : List Char × List Char :=
  (cs.takeWhile Char.isDigit, cs.dropWhile Char.isDigit)

/-- Decimal value of a digit run. -/
def digitsToNat (ds : List Char) : Nat :=
  ds.foldl (fun a c => 10 * a + (c.toNat - 48)) 0

/-- Exponent part (`e`/`E` already consumed): optional sign then digits. -/
def jexp (cs : List Char) : Option (List Char × List Char) :=
  let (sign, cs₁) :=
    match cs with
    | '+' :: r => (['+'], r)
    | '-' :: r => (['-'], r)
    | _ => ([], cs)
  let (ds, rest) := spanDigits cs₁
  if ds.isEmpty then none else some (sign ++ ds, rest)

/-- Number tail after the integer digits: optional fraction and exponent.
Returns the consumed characters, whether a fraction/exponent was present
(float vs int), and the rest. -/
def jnumTail (cs : List Char) : Option (List Char × Bool × List Char) :=
  match cs with
  | '.' :: r =>
    let (fds, r₁) := spanDigits r
    if fds.isEmpty then none
    else
      match r₁ with
      | 'e' :: r₂ => (jexp r₂).map fun (e, r₃) => ('.' :: fds ++ 'e' :: e, true, r₃)
      | 'E' :: r₂ => (jexp r₂).map fun (e, r₃) => ('.' :: fds ++ 'e' :: e, true, r₃)
      | _ => some ('.' :: fds, true, r₁)
  | 'e' :: r₂ => (jexp r₂).map fun (e, r₃) => ('e' :: e, true, r₃)
  | 'E' :: r₂ => (jexp r₂).map fun (e, r₃) => ('e' :: e, true, r₃)
  | _ => some ([], false, cs)

/-- JSON number at the front of the input: strict grammar, `-?(0|[1-9][0-9]*)`
then optional fraction/exponent; integral literals give `vInt`, others
`vFloat` carrying the literal text. -/
def jnum (cs : List Char) : Option (Value × List Char) :=
  let (neg, cs₁) := match cs with | '-' :: r => (true, r) | _ => (false, cs)
  match cs₁ with
  | '0' :: r =>
    (jnumTail r).map fun (tail, isFloat, rest) =>
      if isFloat then
        (.vFloat ⟨(if neg then ['-'] else []) ++ '0' :: tail⟩, rest)
      else (.vInt 0, rest)
  | c :: r =>
    if c.isDigit then
      let (ds, r₁) := spanDigits (c :: r)
      (jnumTail r₁).map fun (tail, isFloat, rest) =>
        if isFloat then
          (.vFloat ⟨(if neg then ['-'] else []) ++ ds ++ tail⟩, rest)
        else
          (.vInt (if neg then -(digitsToNat ds : Int) else (digitsToNat ds : Int)), rest)
    else none
  | [] => none

mutual

/-- One JSON value at the front of the input (fuel-bounded). -/
def jval : Nat → List Char → Option (Value × List Char)
  | 0, _ => none
  | fuel + 1, cs =>
    match skipWs cs with
    | [] => none
    | '[' :: rest =>
      (match skipWs rest with
       | ']' :: rest₁ => some (.vList [], rest₁)
       | rest₁ => (jelems fuel rest₁).map fun (es, r) => (.vList es, r))
    | '{' :: rest =>
      (match skipWs rest with
       | '}' :: rest₁ => some (.vDict [], rest₁)
       | rest₁ => (jmembers fuel rest₁).map fun (ms, r) => (.vDict ms, r))
    | '"' :: rest => (jstr rest).map fun (content, r) => (.vStr ⟨content⟩, r)
    | 't' :: rest => (eatLit ['r', 'u', 'e'] rest).map fun r => (.vBool true, r)
    | 'f' :: rest => (eatLit ['a', 'l', 's', 'e'] rest).map fun r => (.vBool false, r)
    | 'n' :: rest => (eatLit ['u', 'l', 'l'] rest).map fun r => (.vNull, r)
    | 'N' :: rest => (eatLit ['a', 'N'] rest).map fun r => (.vFloat "nan", r)
    | 'I' :: rest =>
      (eatLit ['n', 'f', 'i', 'n', 'i', 't', 'y'] rest).map fun r => (.vFloat "inf", r)
    | '-' :: 'I' :: rest =>
      (eatLit ['n', 'f', 'i', 'n', 'i', 't', 'y'] rest).map fun r => (.vFloat "-inf", r)
    | cs₁ => jnum cs₁

/-- Array elements after `[` (at least one), up to and including `]`. -/
def jelems : Nat → List Char → Option (List Value × List Char)
  | 0, _ => none
  | fuel + 1, cs => do
    let (v, r) ← jval fuel cs
    match skipWs r with
    | ',' :: r₁ => do
      let (vs, r₂) ← jelems fuel r₁
      pure (v :: vs, r₂)
    | ']' :: r₁ => pure ([v], r₁)
    | _ => none

/-- Object members after `{` (at least one), up to and including `}`. -/
def jmembers : Nat → List Char → Option (List (String × Value) × List Char)
  | 0, _ => none
  | fuel + 1, cs => do
    let (k, r) ←
      match skipWs cs with
      | '"' :: rest => jstr rest
      | _ => none
    let r₁ ←
      match skipWs r with
      | ':' :: r₁ => some r₁
      | _ => none
    let (v, r₂) ← jval fuel r₁
    match skipWs r₂ with
    | ',' :: r₃ => do
      let (ms, r₄) ← jmembers fuel r₃
      pure ((⟨k⟩, v) :: ms, r₄)
    | '}' :: r₃ => pure ([(⟨k⟩, v)], r₃)
    | _ => none

end

/-- `json.loads`: decode one document and require only whitespace after it. -/
def json_loads (s : String) : Option Value :=
  match jval (2 * s.data.length + 2) s.data with
  | some (v, rest) => if skipWs rest = [] then some v else none
  | none => none

/-! ### Scalar and collection parsers -/

/-- `parse_list`: strip; empty text gives an empty list; otherwise try
`json.loads`, and on decode failure split on every comma and keep each token
stripped, as a string.  A successful decode is returned as-is (it need not be
a list). -/
def parse_list (s : String) : Value :=
  let t := pyStripL s.data
  if t.isEmpty then .vList []
  else
    match json_loads ⟨t⟩ with
    | some v => v
    | none => .vList ((splitComma t).map fun tok => .vStr ⟨pyStripL tok⟩)

/-- Python `int(text)` (ASCII model): strip, optional sign, then at least one
ASCII decimal digit; anything else raises, i.e. gives `none`.  In particular
a non-decimal digit character (e.g. `'²'`) makes `int()` raise even though
`str.isdigit()` accepted it. -/
def pyIntL (cs : List Char) : Option Int :=
  match cs with
  | '-' :: ds => if pyDecDigitsL ds then some (-(digitsToNat ds : Int)) else none
  | '+' :: ds => if pyDecDigitsL ds then some (digitsToNat ds : Int) else none
  | ds => if pyDecDigitsL ds then some (digitsToNat ds : Int) else none

/-- `parse_int`: `int(s.strip())`. -/
def parse_int (s : String) : Option Int :=
  pyIntL (pyStripL s.data)

/-- Python `float(text)` validity (ASCII model): optional sign, then
`inf`/`infinity`/`nan` (case-insensitive) or a decimal literal with at least
one digit and optional fraction and exponent. -/
def pyFloatOkL (cs : List Char) : Bool :=
  let cs₁ := match cs with | '-' :: r => r | '+' :: r => r | _ => cs
  let low := pyLowerL cs₁
  if low = ['i', 'n', 'f'] || low = ['i', 'n', 'f', 'i', 'n', 'i', 't', 'y'] ||
      low = ['n', 'a', 'n'] then true
  else
    let (ip, r₁) := spanDigits cs₁
    let (fp, r₂) := match r₁ with
      | '.' :: r => spanDigits r
      | _ => ([], r₁)
    if ip.isEmpty && fp.isEmpty then false
    else
      match r₂ with
      | [] => true
      | 'e' :: r₃ => (jexp r₃).elim false fun (_, rest) => rest.isEmpty
      | 'E' :: r₃ => (jexp r₃).elim false fun (_, rest) => rest.isEmpty
      | _ => false

/-- `parse_float`: `float(s.strip())`; the accepted literal is carried
verbatim as the float's representation. -/
def parse_float (s : String) : Option Value :=
  let t := pyStripL s.data
  if pyFloatOkL t then some (.vFloat ⟨t⟩) else none

/-- The character-list core of `parse_string`: strip, then remove one outer
pair of double or single quotes when the first and last characters are both
that quote. -/
def parse_stringL (cs : List Char) : List Char :=
  let t := pyStripL cs
  if (t.head? = some '"' ∧ t.getLast? = some '"') ∨
      (t.head? = some '\'' ∧ t.getLast? = some '\'') then
    (t.drop 1).dropLast
  else t

/-- `parse_string`: strip whitespace and remove a surrounding quote pair. -/
def parse_string (s : String) : String :=
  ⟨parse_stringL s.data⟩

/-- `parse_bool`: strip, lower, and test membership in `{true, 1, yes}`. -/
def parse_bool (s : String) : Bool :=
  let u := pyLowerL (pyStripL s.data)
  u = ['t', 'r', 'u', 'e'] || u = ['1'] || u = ['y', 'e', 's']

/-! ### Structural parser compositions -/

/-- Elements of a decoded list as machine integers, when they all are ints
(the model restricts node payloads to integers, as the source's type
annotations declare). -/
def valueToIntList : Value → Option (List Int)
  | .vList l => l.mapM fun | .vInt n => some n | _ => none
  | _ => none

/-- Elements of a decoded list as nullable integers. -/
def valueToOptIntList : Value → Option (List (Option Int))
  | .vList l => l.mapM fun | .vInt n => some (some n) | .vNull => some none | _ => none
  | _ => none

/-- `parse_linked_list`: `parse_list` then `list_to_linked_list`; a null
result is Python's `None`. -/
def parse_linked_list (s : String) : Option Value :=
  (valueToIntList (parse_list s)).map fun arr =>
    match list_to_linked_list arr with
    | none => .vNull
    | some h => .vLinked h

/-- `parse_tree`: `parse_list` then `list_to_tree`. -/
def parse_tree (s : String) : Option Value :=
  (valueToOptIntList (parse_list s)).map fun arr =>
    match list_to_tree arr with
    | none => .vNull
    | some t => .vTree t

/-! ### Top-level dispatch (`parse_input`, `parse_leetcode_input`) -/

/-- The auto-detection integer test: `s.isdigit() or (s.startswith('-') and
s[1:].isdigit())`. -/
def intTextGuard (cs : List Char) : Bool :=
  pyIsDigitsL cs || (match cs with | '-' :: r => pyIsDigitsL r | _ => false)

/-- The auto-detection boolean test: `s.lower() in ('true', 'false')`. -/
def boolTextGuard (cs : List Char) : Bool :=
  pyLowerL cs = ['t', 'r', 'u', 'e'] || pyLowerL cs = ['f', 'a', 'l', 's', 'e']

/-- `parse_input`: strip, dispatch on the type hint, and for any other hint
(including the default `auto`) detect list, then integer, then boolean, then
fall back to string. -/
def parse_input (s : String) (hint : String) : Option Value :=
  let t : String := ⟨pyStripL s.data⟩
  match hint with
  | "list" => some (parse_list t)
  | "int" => (parse_int t).map .vInt
  | "float" => parse_float t
  | "string" => some (.vStr (parse_string t))
  | "bool" => some (.vBool (parse_bool t))
  | "linked_list" => parse_linked_list t
  | "tree" => parse_tree t
  | _ =>
    if t.data.head? = some '[' then some (parse_list t)
    else if intTextGuard t.data then (parse_int t).map .vInt
    else if boolTextGuard t.data then some (.vBool (parse_bool t))
    else some (.vStr (parse_string t))

/-- The parameter-splitting loop of `parse_leetcode_input`: walk the
characters keeping a bracket-nesting counter; a comma at depth zero ends the
current parameter (appended stripped, even when empty); the final parameter
is appended only when non-blank.  `cur` is the current parameter reversed. -/
def goSplit : List Char → List Char → Int → List (List Char)
  | [], cur, _ =>
    if (pyStripL cur.reverse).isEmpty then [] else [pyStripL cur.reverse]
  | '[' :: rest, cur, d => goSplit rest ('[' :: cur) (d + 1)
  | ']' :: rest, cur, d => goSplit rest (']' :: cur) (d - 1)
  | ',' :: rest, cur, d =>
    if d = 0 then pyStripL cur.reverse :: goSplit rest [] 0
    else goSplit rest (',' :: cur) d
  | c :: rest, cur, d => goSplit rest (c :: cur) d

/-- Characters after the first `=`, when one occurs. -/
def afterFirstEq : List Char → Option (List Char)
  | [] => none
  | '=' :: r => some r
  | _ :: r => afterFirstEq r

/-- Value part of one `name = value` parameter: the substring after the first
`=` when present, the whole parameter otherwise, stripped. -/
def extractValue (p : List Char) : List Char :=
  match afterFirstEq p with
  | some after => pyStripL after
  | none => pyStripL p

/-- `parse_leetcode_input`: strip the line (blank gives `[]`), split into
parameters at top-level commas, take each parameter's value part and parse it
with auto detection; parameter names are discarded. -/
def parse_leetcode_input (s : String) : Option (List Value) :=
  let t := pyStripL s.data
  if t.isEmpty then some []
  else
    (goSplit t [] 0).mapM fun p => parse_input ⟨extractValue p⟩ "auto"

/-! ### Output formatting (`format_output`) -/

/-- JSON string escaping (ASCII model): backslash, quote, and the common
control characters; other control characters via `\u00XX`. -/
def jsonEscape : List Char → List Char
  | [] => []
  | c :: rest =>
    (if c = '"' then ['\\', '"']
     else if c = '\\' then ['\\', '\\']
     else if c = '\n' then ['\\', 'n']
     else if c = '\r' then ['\\', 'r']
     else if c = '\t' then ['\\', 't']
     else if c = '\x08' then ['\\', 'b']
     else if c = '\x0c' then ['\\', 'f']
     else if c.toNat < 32 then
       ['\\', 'u', '0', '0', Char.ofNat (c.toNat / 16 + 48),
        if c.toNat % 16 < 10 then Char.ofNat (c.toNat % 16 + 48)
        else Char.ofNat (c.toNat % 16 + 87)]
     else [c]) ++ jsonEscape rest

mutual

/-- `json.dumps` with Python's default separators, over the value model.
Python renders a `bool` inside a structure as `true`/`false` and `None` as
`null`; strings are quoted with the standard escapes (ASCII model).  A raw
node object is not JSON-serialisable in Python (`TypeError`); those two cases
are unreachable from `format_output`, which flattens nodes first, and are
given an inert marker here. -/
def json_dumps : Value → String
  | .vNull => "null"
  | .vBool true => "true"
  | .vBool false => "false"
  | .vInt n => toString n
  | .vFloat lit => lit
  | .vStr s => "\"" ++ ⟨jsonEscape s.data⟩ ++ "\""
  | .vList l => "[" ++ dumpElems l ++ "]"
  | .vDict d => "\x7b" ++ dumpMembers d ++ "\x7d"
  | .vLinked _ => "<TypeError>"
  | .vTree _ => "<TypeError>"

/-- Sequence items joined by `", "`. -/
def dumpElems : List Value → String
  | [] => ""
  | [v] => json_dumps v
  | v :: rest => json_dumps v ++ ", " ++ dumpElems rest

/-- Object members joined by `", "` with `": "` after each key. -/
def dumpMembers : List (String × Value) → String
  | [] => ""
  | [(k, v)] => "\"" ++ k ++ "\": " ++ json_dumps v
  | (k, v) :: rest => "\"" ++ k ++ "\": " ++ json_dumps v ++ ", " ++ dumpMembers rest

end

/-- `format_output`: linked lists and trees are flattened and dumped; a bool
is `true`/`false`; lists are dumped; `None` is `null`; any other scalar uses
its `str(...)` form. -/
def format_output : Value → String
  | .vLinked h => json_dumps (.vList ((linked_list_to_list (some h)).map .vInt))
  | .vTree t =>
    json_dumps (.vList ((tree_to_list (some t)).map fun
      | none => Value.vNull
      | some n => Value.vInt n))
  | .vBool b => if b then "true" else "false"
  | .vList l => json_dumps (.vList l)
  | .vNull => "null"
  | .vInt n => toString n
  | .vFloat lit => lit
  | .vStr s => s
  | .vDict d => json_dumps (.vDict d)

/-! ### Spec-side comparison definitions

The following two definitions follow the specification's words, not the
source, and exist only to state refinement comparisons against the embedded
code. -/

/-- Modelled from the spec: the fallback split the spec describes for
`parseList`, which splits only at commas whose running bracket-nesting
counter (incremented on `[`, decremented on `]`) is zero.  `cur` is the
current token reversed. -/
def splitTopComma : List Char → List Char → Int → List (List Char)
  | [], cur, _ => [cur.reverse]
  | '[' :: rest, cur, d => splitTopComma rest ('[' :: cur) (d + 1)
  | ']' :: rest, cur, d => splitTopComma rest (']' :: cur) (d - 1)
  | ',' :: rest, cur, d =>
    if d = 0 then cur.reverse :: splitTopComma rest [] 0
    else splitTopComma rest (',' :: cur) d
  | c :: rest, cur, d => splitTopComma rest (c :: cur) d

/-- Modelled from the spec: `parseList` as the specification states it, with
the decode-failure fallback splitting on top-level commas only (nested
commas are not split points) and trimming each token as a string. -/
def parse_list_spec (s : String) : Value :=
  let t := pyStripL s.data
  if t.isEmpty then .vList []
  else
    match json_loads ⟨t⟩ with
    | some v => v
    | none => .vList ((splitTopComma t [] 0).map fun tok => .vStr ⟨pyStripL tok⟩)

/-- Modelled from the spec: `parseString` as the specification states it,
stripping an outer quote pair only when the trimmed text is wrapped in a
matching pair (which requires at least two characters); all other trimmed
text is returned unchanged. -/
def parse_string_spec (s : String) : String :=
  let t := pyStripL s.data
  if 2 ≤ t.length ∧
      ((t.head? = some '"' ∧ t.getLast? = some '"') ∨
        (t.head? = some '\'' ∧ t.getLast? = some '\'')) then
    ⟨(t.drop 1).dropLast⟩
  else ⟨t⟩


/-! ## Helper lemmas -/

theorem dropWhile_self (p : Char → Bool) (l : List Char) :
    (l.dropWhile p).dropWhile p = l.dropWhile p := by
  induction l with
  | nil => rfl
  | cons c t ih =>
    by_cases h : p c
    · simpa [List.dropWhile_cons, h] using ih
    · simp [List.dropWhile_cons, h]

theorem dropWhile_append_char (p : Char → Bool) (a b : List Char) :
    (a ++ b).dropWhile p =
      if (a.dropWhile p).isEmpty then b.dropWhile p else a.dropWhile p ++ b := by
  induction a with
  | nil => simp
  | cons c t ih =>
    by_cases h : p c
    · simpa [List.dropWhile_cons, h] using ih
    · simp [List.dropWhile_cons, h]

theorem length_dropWhile_le_char (p : Char → Bool) (l : List Char) :
    (l.dropWhile p).length ≤ l.length := by
  induction l with
  | nil => simp
  | cons c t ih =>
    by_cases h : p c
    · simp only [List.dropWhile_cons, h, if_true]
      exact le_trans ih (Nat.le_succ _)
    · simp [List.dropWhile_cons, h]

theorem dropWhile_fixed_head (p : Char → Bool) (c : Char) (t : List Char)
    (h : (c :: t).dropWhile p = c :: t) : p c = false := by
  by_cases hc : p c
  · exfalso
    have hlen := length_dropWhile_le_char p t
    rw [List.dropWhile_cons, if_pos hc] at h
    have : t.length + 1 ≤ t.length := by
      calc t.length + 1 = (c :: t).length := rfl
        _ = (t.dropWhile p).length := by rw [← h]
        _ ≤ t.length := hlen
    omega
  · exact eq_false_of_ne_true hc

theorem rstripL_fixed (z : List Char) (h : z.dropWhile pySpace = z) :
    (rstripL z).dropWhile pySpace = rstripL z := by
  cases z with
  | nil => rfl
  | cons c t =>
    have hc : pySpace c = false := dropWhile_fixed_head pySpace c t h
    have hr : rstripL (c :: t) =
        if (t.reverse.dropWhile pySpace).isEmpty then [c]
        else c :: (t.reverse.dropWhile pySpace).reverse := by
      unfold rstripL
      rw [List.reverse_cons, dropWhile_append_char]
      by_cases he : (t.reverse.dropWhile pySpace).isEmpty
      · simp [he, List.dropWhile_cons, hc]
      · simp [he, List.dropWhile_cons, hc, List.reverse_append]
    rw [hr]
    by_cases he : (t.reverse.dropWhile pySpace).isEmpty
    · simp [he, List.dropWhile_cons, hc]
    · simp [he, List.dropWhile_cons, hc]

theorem rstripL_idem (y : List Char) : rstripL (rstripL y) = rstripL y := by
  unfold rstripL
  rw [List.reverse_reverse, dropWhile_self]

theorem pyStripL_idem (l : List Char) : pyStripL (pyStripL l) = pyStripL l := by
  have h1 : (pyStripL l).dropWhile pySpace = pyStripL l :=
    rstripL_fixed (l.dropWhile pySpace) (dropWhile_self pySpace l)
  show rstripL ((pyStripL l).dropWhile pySpace) = pyStripL l
  rw [h1]
  exact rstripL_idem _

theorem okCount_nil (n : Nat) : okCount n [] = true := rfl

theorem okCount_zero (xs : List (Option Int)) (h : okCount 0 xs = true) : xs = [] := by
  cases xs with
  | nil => rfl
  | cons x rest => simp [okCount] at h

theorem realsOf_append (a b : List (Option Int)) :
    realsOf (a ++ b) = realsOf a ++ realsOf b := by
  simp [realsOf, List.filterMap_append]

theorem countSome_append (a b : List (Option Int)) :
    countSome (a ++ b) = countSome a + countSome b := by
  simp [countSome, realsOf_append]

theorem length_step (p : List Int) (xs : List (Option Int)) :
    (step p xs).length = p.length := by
  induction p, xs using step.induct with
  | case1 => simp [step]
  | case2 v rest ih => simp [step, ih]
  | case3 v rest x1 ih =>
    simp only [step, List.length_cons, List.length_take, ih, List.length_append]
    omega
  | case4 v rest x1 x2 xs₂ ih =>
    simp only [step, List.length_cons, List.length_take, ih, List.length_append]
    omega

theorem length_mergeBack (q : List (Option Int)) (ts : List TreeNode) :
    (mergeBack q ts).length = q.length := by
  induction q, ts using mergeBack.induct <;> simp [mergeBack, *]

theorem mergeBack_append (A B : List (Option Int)) (ts : List TreeNode) :
    mergeBack (A ++ B) ts =
      mergeBack A ts ++ mergeBack B (ts.drop (realsOf A).length) := by
  induction A generalizing ts with
  | nil => simp [mergeBack, realsOf]
  | cons x A' ih =>
    cases x with
    | none => simp [mergeBack, realsOf, ih]
    | some a =>
      cases ts with
      | nil =>
        simp only [List.cons_append, mergeBack, List.append_eq]
        rw [ih]
        simp
      | cons t ts' =>
        have h1 : realsOf (some a :: A') = a :: realsOf A' := by simp [realsOf]
        simp only [List.cons_append, mergeBack, h1, List.length_cons,
          List.drop_succ_cons]
        exact congrArg (List.cons (some t)) (ih ts')

theorem mergeBack_take (A : List (Option Int)) (ts : List TreeNode) :
    mergeBack A (ts.take (realsOf A).length) = mergeBack A ts := by
  induction A generalizing ts with
  | nil => simp [mergeBack]
  | cons x A' ih =>
    cases x with
    | none => simpa [mergeBack, realsOf] using ih ts
    | some a =>
      cases ts with
      | nil => simp
      | cons t ts' =>
        have h1 : realsOf (some a :: A') = a :: realsOf A' := by simp [realsOf]
        simp only [h1, List.length_cons, List.take_succ_cons, mergeBack]
        have h2 : List.filterMap id A' = realsOf A' := rfl
        rw [h2, ih]

theorem dropWhile_replicate_none (n : Nat) (z : List (Option Int)) :
    (List.replicate n (none : Option Int) ++ z).dropWhile Option.isNone =
      z.dropWhile Option.isNone := by
  induction n with
  | zero => simp
  | succ k ih => simp [List.replicate_succ, List.dropWhile_cons, ih]

theorem trim_append_replicate (ys : List (Option Int)) (n : Nat) :
    trimTrailingNone (ys ++ List.replicate n none) = trimTrailingNone ys := by
  unfold trimTrailingNone
  rw [List.reverse_append, List.reverse_replicate, dropWhile_replicate_none]

theorem trim_of_no_trailing (xs : List (Option Int)) (h : xs.getLast? ≠ some none) :
    trimTrailingNone xs = xs := by
  unfold trimTrailingNone
  cases hr : xs.reverse with
  | nil =>
    have : xs = [] := by simpa using congrArg List.reverse hr
    simp [this, hr]
  | cons a t =>
    have ha : xs.getLast? = some a := by
      rw [← List.head?_reverse, hr]; rfl
    have han : a ≠ none := fun he => h (he ▸ ha)
    have : a.isNone = false := by
      cases a with
      | none => exact absurd rfl han
      | some _ => rfl
    rw [List.dropWhile_cons, this]
    simp [← hr]

theorem okCount_cons (n : Nat) (x : Option Int) (rest : List (Option Int)) :
    okCount n (x :: rest) =
      if n = 0 then false else okCount (n - 1 + (if x.isSome then 2 else 0)) rest := rfl

theorem okCount_cons_pos (n : Nat) (x : Option Int) (rest : List (Option Int))
    (hn : n ≠ 0) (h : okCount n (x :: rest) = true) :
    okCount (n - 1 + (if x.isSome then 2 else 0)) rest = true := by
  rw [okCount_cons, if_neg hn] at h
  exact h

theorem step_nil (xs : List (Option Int)) : step [] xs = [] := by simp [step]

theorem step_cons_nil (v : Int) (rest : List Int) :
    step (v :: rest) [] = .mk v none none :: step rest [] := by simp [step]

theorem step_cons_one (v : Int) (rest : List Int) (x1 : Option Int) :
    step (v :: rest) [x1] =
      .mk v (if x1.isSome then (step (rest ++ x1.toList) []).get? rest.length else none)
          none
        :: (step (rest ++ x1.toList) []).take rest.length := by
  simp [step]

theorem step_cons_two (v : Int) (rest : List Int) (x1 x2 : Option Int)
    (xs₂ : List (Option Int)) :
    step (v :: rest) (x1 :: x2 :: xs₂) =
      .mk v
          (if x1.isSome then
            (step (rest ++ x1.toList ++ x2.toList) xs₂).get? rest.length else none)
          (if x2.isSome then
            (step (rest ++ x1.toList ++ x2.toList) xs₂).get?
              (rest.length + x1.toList.length) else none)
        :: (step (rest ++ x1.toList ++ x2.toList) xs₂).take rest.length := by
  simp [step]

theorem serQ_nil : serQ [] = [] := by simp [serQ]

theorem serQ_cons_none (q : List (Option TreeNode)) :
    serQ (none :: q) = none :: serQ q := by simp [serQ]

theorem serQ_cons_some (v : Int) (l r : Option TreeNode) (q : List (Option TreeNode)) :
    serQ (some (.mk v l r) :: q) = some v :: serQ (q ++ [l, r]) := by simp [serQ]

theorem mergeBack_cons_none (q : List (Option Int)) (ts : List TreeNode) :
    mergeBack (none :: q) ts = none :: mergeBack q ts := rfl

theorem mergeBack_cons_some (a : Int) (q : List (Option Int)) (t : TreeNode)
    (ts : List TreeNode) :
    mergeBack (some a :: q) (t :: ts) = some t :: mergeBack q ts := rfl

theorem realsOf_nil : realsOf [] = [] := rfl

theorem realsOf_cons_none (rest : List (Option Int)) :
    realsOf (none :: rest) = realsOf rest := by simp [realsOf]

theorem realsOf_cons_some (a : Int) (rest : List (Option Int)) :
    realsOf (some a :: rest) = a :: realsOf rest := by simp [realsOf]

theorem countSome_nil : countSome [] = 0 := rfl

theorem countSome_cons_none (rest : List (Option Int)) :
    countSome (none :: rest) = countSome rest := by simp [countSome, realsOf]

theorem countSome_cons_some (a : Int) (rest : List (Option Int)) :
    countSome (some a :: rest) = countSome rest + 1 := by simp [countSome, realsOf]

theorem two_none_replicate (k : Nat) :
    (none : Option Int) :: none :: List.replicate k none = List.replicate (k + 2) none := by
  rw [show k + 2 = (k + 1) + 1 from rfl, List.replicate_succ, List.replicate_succ]

theorem one_none_replicate (k : Nat) :
    (none : Option Int) :: List.replicate k none = List.replicate (k + 1) none := by
  rw [List.replicate_succ]

theorem list_len_one {α : Type} (l : List α) (h : l.length = 1) : ∃ a, l = [a] :=
  List.length_eq_one.mp h

theorem list_len_two {α : Type} (l : List α) (h : l.length = 2) :
    ∃ a b, l = [a, b] := by
  cases l with
  | nil => simp at h
  | cons a l1 =>
    cases l1 with
    | nil => simp at h
    | cons b l2 =>
      cases l2 with
      | nil => exact ⟨a, b, rfl⟩
      | cons c l3 => simp at h

theorem get_of_drop_one {α : Type} (l : List α) (k : Nat) (t : α)
    (h : l.drop k = [t]) : l[k]? = some t := by
  have h0 := List.getElem?_drop l k 0
  rw [Nat.add_zero] at h0
  rw [← h0, h]
  rfl

theorem get_of_drop_two {α : Type} (l : List α) (k : Nat) (t₁ t₂ : α)
    (h : l.drop k = [t₁, t₂]) : l[k]? = some t₁ ∧ l[k + 1]? = some t₂ := by
  constructor
  · have h0 := List.getElem?_drop l k 0
    rw [Nat.add_zero] at h0
    rw [← h0, h]
    rfl
  · have h1 := List.getElem?_drop l k 1
    rw [← h1, h]
    rfl

theorem mergeBack_slot_one (x1 : Option Int) (built : List TreeNode) (k : Nat)
    (hlb : built.length = k + x1.toList.length) :
    mergeBack [x1, none] (built.drop k)
      = [(if x1.isSome then built.get? k else none), none] := by
  cases x1 with
  | none =>
    have hdrop : built.drop k = [] := by
      apply List.drop_eq_nil_of_le
      simp [Option.toList] at hlb
      omega
    simp [hdrop, mergeBack]
  | some a =>
    have hlen1 : (built.drop k).length = 1 := by
      rw [List.length_drop]
      simp [Option.toList] at hlb
      omega
    obtain ⟨t, ht⟩ := list_len_one _ hlen1
    rw [ht]
    simp [mergeBack, get_of_drop_one built k t ht]

theorem mergeBack_two_slots (x1 x2 : Option Int) (built : List TreeNode) (k : Nat)
    (hlb : built.length = k + x1.toList.length + x2.toList.length) :
    mergeBack [x1, x2] (built.drop k)
      = [(if x1.isSome then built.get? k else none),
         (if x2.isSome then built.get? (k + x1.toList.length) else none)] := by
  cases x1 with
  | none =>
    cases x2 with
    | none =>
      have hdrop : built.drop k = [] := by
        apply List.drop_eq_nil_of_le
        simp [Option.toList] at hlb
        omega
      simp [hdrop, mergeBack]
    | some b =>
      have hlen1 : (built.drop k).length = 1 := by
        rw [List.length_drop]
        simp [Option.toList] at hlb
        omega
      obtain ⟨t, ht⟩ := list_len_one _ hlen1
      rw [ht]
      simp [mergeBack, Option.toList, get_of_drop_one built k t ht]
  | some a =>
    cases x2 with
    | none =>
      have hlen1 : (built.drop k).length = 1 := by
        rw [List.length_drop]
        simp [Option.toList] at hlb
        omega
      obtain ⟨t, ht⟩ := list_len_one _ hlen1
      rw [ht]
      simp [mergeBack, Option.toList, get_of_drop_one built k t ht]
    | some b =>
      have hlen2 : (built.drop k).length = 2 := by
        rw [List.length_drop]
        simp [Option.toList] at hlb
        omega
      obtain ⟨t₁, t₂, ht⟩ := list_len_two _ hlen2
      obtain ⟨hg1, hg2⟩ := get_of_drop_two built k t₁ t₂ ht
      rw [ht]
      simp [mergeBack, Option.toList, hg1, hg2]

theorem serQ_mergeBack_step :
    ∀ (n : Nat) (Q xs : List (Option Int)),
      4 * xs.length + 2 * countSome Q + Q.length ≤ n →
      okCount (2 * countSome Q) xs = true →
      serQ (mergeBack Q (step (realsOf Q) xs)) =
        Q ++ xs ++ List.replicate (2 * (countSome Q + countSome xs) - xs.length) none := by
  intro n
  induction n with
  | zero =>
    intro Q xs hm _
    have hQ : Q = [] := List.length_eq_zero.mp (by omega)
    have hx : xs = [] := List.length_eq_zero.mp (by omega)
    subst hQ; subst hx
    simp [realsOf, step_nil, mergeBack, serQ_nil, countSome]
  | succ n ih =>
    intro Q xs hm hok
    match Q with
    | [] =>
      have hx : xs = [] := okCount_zero xs (by simpa [countSome, realsOf] using hok)
      subst hx
      simp [realsOf, step_nil, mergeBack, serQ_nil, countSome]
    | none :: rest =>
      have hc := countSome_cons_none rest
      have hok' : okCount (2 * countSome rest) xs = true := by rwa [hc] at hok
      have hm' : 4 * xs.length + 2 * countSome rest + rest.length ≤ n := by
        rw [hc] at hm
        simp only [List.length_cons] at hm
        omega
      rw [realsOf_cons_none, mergeBack_cons_none, serQ_cons_none, ih rest xs hm' hok']
      simp [hc]
    | some v :: rest =>
      have hcs := countSome_cons_some v rest
      rw [realsOf_cons_some]
      match xs with
      | [] =>
        rw [step_cons_nil, mergeBack_cons_some, serQ_cons_some]
        have hQ' : realsOf (rest ++ [none, none]) = realsOf rest := by
          simp [realsOf_append, realsOf]
        have hcQ' : countSome (rest ++ [none, none]) = countSome rest := by
          simp [countSome_append, countSome, realsOf]
        have hbridge : mergeBack rest (step (realsOf rest) []) ++ [none, none]
            = mergeBack (rest ++ [none, none]) (step (realsOf rest) []) := by
          rw [mergeBack_append]
          rfl
        rw [hbridge]
        have hm' : 4 * List.length ([] : List (Option Int)) +
            2 * countSome (rest ++ [none, none]) + (rest ++ [none, none]).length ≤ n := by
          rw [hcQ']
          rw [hcs] at hm
          simp only [List.length_append, List.length_cons, List.length_nil] at hm ⊢
          omega
        have hres := ih (rest ++ [none, none]) [] hm' rfl
        rw [hQ'] at hres
        rw [hres, hcQ', hcs]
        simp only [countSome_nil, List.length_nil, List.append_nil, Nat.add_zero,
          Nat.sub_zero, List.cons_append, List.append_assoc, List.nil_append]
        rw [two_none_replicate,
          show 2 * countSome rest + 2 = 2 * (countSome rest + 1) from by ring]
      | [x1] =>
        rw [step_cons_one, mergeBack_cons_some, serQ_cons_some, mergeBack_take]
        have hlb : (step (realsOf rest ++ x1.toList) []).length
            = (realsOf rest).length + x1.toList.length := by
          rw [length_step, List.length_append]
        rw [← mergeBack_slot_one x1 _ _ hlb, ← mergeBack_append]
        have hQ' : realsOf (rest ++ [x1, none]) = realsOf rest ++ x1.toList := by
          cases x1 <;> simp [realsOf_append, realsOf, Option.toList]
        have hcQ' : countSome (rest ++ [x1, none])
            = countSome rest + x1.toList.length := by
          cases x1 <;> simp [countSome_append, countSome, realsOf, Option.toList]
        have hca : countSome [x1] = x1.toList.length := by
          cases x1 <;> simp [countSome, realsOf, Option.toList]
        have htl1 : x1.toList.length ≤ 1 := by cases x1 <;> simp [Option.toList]
        have hm' : 4 * List.length ([] : List (Option Int)) +
            2 * countSome (rest ++ [x1, none]) + (rest ++ [x1, none]).length ≤ n := by
          rw [hcQ']
          rw [hcs] at hm
          simp only [List.length_append, List.length_cons, List.length_nil] at hm ⊢
          omega
        have hres := ih (rest ++ [x1, none]) [] hm' rfl
        rw [hQ'] at hres
        rw [hres, hcQ', hcs, hca]
        simp only [countSome_nil, List.length_nil, List.length_cons, Nat.add_zero,
          Nat.sub_zero, List.append_nil, List.cons_append, List.append_assoc,
          List.nil_append]
        rw [one_none_replicate,
          show 2 * (countSome rest + x1.toList.length) + 1
              = 2 * (countSome rest + 1 + x1.toList.length) - 1 from by omega]
      | x1 :: x2 :: xs₂ =>
        rw [step_cons_two, mergeBack_cons_some, serQ_cons_some, mergeBack_take]
        have hlb : (step (realsOf rest ++ x1.toList ++ x2.toList) xs₂).length
            = (realsOf rest).length + x1.toList.length + x2.toList.length := by
          rw [length_step]
          simp [List.length_append]
          omega
        rw [← mergeBack_two_slots x1 x2 _ _ hlb, ← mergeBack_append]
        have hQ' : realsOf (rest ++ [x1, x2])
            = realsOf rest ++ x1.toList ++ x2.toList := by
          cases x1 <;> cases x2 <;> simp [realsOf_append, realsOf, Option.toList]
        have hcQ' : countSome (rest ++ [x1, x2])
            = countSome rest + x1.toList.length + x2.toList.length := by
          cases x1 <;> cases x2 <;>
            simp [countSome_append, countSome, realsOf, Option.toList]
        have hcx : countSome (x1 :: x2 :: xs₂)
            = countSome xs₂ + x1.toList.length + x2.toList.length := by
          cases x1 <;> cases x2 <;>
            simp [countSome_cons_none, countSome_cons_some, Option.toList]
        have hif1 : (if x1.isSome then 2 else 0) = 2 * x1.toList.length := by
          cases x1 <;> simp [Option.toList]
        have hif2 : (if x2.isSome then 2 else 0) = 2 * x2.toList.length := by
          cases x2 <;> simp [Option.toList]
        have htl1 : x1.toList.length ≤ 1 := by cases x1 <;> simp [Option.toList]
        have htl2 : x2.toList.length ≤ 1 := by cases x2 <;> simp [Option.toList]
        rw [hcs] at hok
        have h1 := okCount_cons_pos _ x1 _ (by omega) hok
        have h2 := okCount_cons_pos _ x2 _ (by omega) h1
        have hokQ' : okCount (2 * countSome (rest ++ [x1, x2])) xs₂ = true := by
          have hidx : 2 * (countSome rest + 1) - 1 + (if x1.isSome then 2 else 0) - 1 +
              (if x2.isSome then 2 else 0) = 2 * countSome (rest ++ [x1, x2]) := by
            rw [hcQ', hif1, hif2]
            omega
          rwa [hidx] at h2
        have hm' : 4 * xs₂.length + 2 * countSome (rest ++ [x1, x2]) +
            (rest ++ [x1, x2]).length ≤ n := by
          rw [hcQ']
          rw [hcs] at hm
          simp only [List.length_append, List.length_cons, List.length_nil] at hm ⊢
          omega
        have hres := ih (rest ++ [x1, x2]) xs₂ hm' hokQ'
        rw [hQ'] at hres
        rw [hres, hcQ', hcs, hcx]
        have hpad : 2 * (countSome rest + x1.toList.length + x2.toList.length +
              countSome xs₂) - xs₂.length
            = 2 * (countSome rest + 1 +
                (countSome xs₂ + x1.toList.length + x2.toList.length)) -
              (x1 :: x2 :: xs₂).length := by
          simp only [List.length_cons]
          omega
        rw [hpad]
        simp [List.append_assoc]


set_option maxHeartbeats 1000000 in
theorem parse_input_auto_eq (s : String) : parse_input s "auto" =
    (if (pyStripL s.data).head? = some '[' then some (parse_list ⟨pyStripL s.data⟩)
     else if intTextGuard (pyStripL s.data) then
       (parse_int ⟨pyStripL s.data⟩).map .vInt
     else if boolTextGuard (pyStripL s.data) then
       some (.vBool (parse_bool ⟨pyStripL s.data⟩))
     else some (.vStr (parse_string ⟨pyStripL s.data⟩))) := rfl

set_option maxHeartbeats 2000000 in
theorem jval_bracket (fuel : Nat) (cs c' : List Char) (hcs : cs = '[' :: c') :
    jval fuel cs = none ∨ ∃ l r, jval fuel cs = some (.vList l, r) := by
  cases fuel with
  | zero => left; rfl
  | succ f =>
    subst hcs
    have hskip : skipWs ('[' :: c') = '[' :: c' := by
      simp [skipWs, List.dropWhile_cons, jsonWs]
    simp only [jval, hskip]
    split
    · right; exact ⟨[], _, rfl⟩
    · cases hje : jelems f (skipWs c') with
      | none => left; simp [hje]
      | some p => right; exact ⟨p.1, p.2, by simp [hje]⟩

theorem json_loads_bracket (w c' : List Char) (hc' : w = '[' :: c') :
    json_loads ⟨w⟩ = none ∨ ∃ l, json_loads ⟨w⟩ = some (.vList l) := by
  have hj := jval_bracket (2 * w.length + 2) w c' hc'
  rcases hj with hnone | ⟨l, r, hsome⟩
  · left; simp [json_loads, hnone]
  · simp only [json_loads, hsome]
    split
    · right; exact ⟨l, rfl⟩
    · left; rfl

theorem parse_list_bracket (u : List Char) (h : (pyStripL u).head? = some '[') :
    ∃ l, parse_list ⟨u⟩ = .vList l := by
  obtain ⟨c', hc'⟩ : ∃ c', pyStripL u = '[' :: c' := by
    cases hw : pyStripL u with
    | nil => rw [hw] at h; simp at h
    | cons a t =>
      rw [hw] at h
      simp at h
      exact ⟨t, by rw [h]⟩
  have hne : (pyStripL u).isEmpty = false := by rw [hc']; rfl
  rcases json_loads_bracket (pyStripL u) c' hc' with hnone | ⟨l, hsome⟩
  · refine ⟨(splitComma (pyStripL u)).map fun tok => .vStr ⟨pyStripL tok⟩, ?_⟩
    simp [parse_list, hne, hnone]
  · exact ⟨l, by simp [parse_list, hne, hsome]⟩

theorem pyNonDecimalDigit_not_ascii (c : Char) (h : pyNonDecimalDigit c = true) :
    128 ≤ c.toNat := by
  have hm : c ∈ ['¹', '²', '³', '⁰', '⁴', '⁵', '⁶', '⁷', '⁸', '⁹',
      '₀', '₁', '₂', '₃', '₄', '₅', '₆', '₇', '₈', '₉'] := by
    unfold pyNonDecimalDigit at h
    exact List.mem_of_elem_eq_true h
  fin_cases hm <;> decide

theorem ascii_digitChar (c : Char) (ha : c.toNat < 128)
    (h : pyIsDigitChar c = true) : c.isDigit = true := by
  unfold pyIsDigitChar at h
  simp only [Bool.or_eq_true] at h
  cases h with
  | inl h1 => exact h1
  | inr h2 => exact absurd (pyNonDecimalDigit_not_ascii c h2) (by omega)

theorem pyDec_of_isdigits_ascii (w : List Char) (ha : w.all pyAsciiChar = true)
    (h : pyIsDigitsL w = true) : pyDecDigitsL w = true := by
  simp only [pyIsDigitsL, Bool.and_eq_true, List.all_eq_true] at h
  simp only [List.all_eq_true, pyAsciiChar, decide_eq_true_eq] at ha
  simp only [pyDecDigitsL, Bool.and_eq_true, List.all_eq_true]
  exact ⟨h.1, fun c hc => ascii_digitChar c (ha c hc) (h.2 c hc)⟩

theorem pyIntL_digits (ds : List Char) (h : pyDecDigitsL ds = true) :
    pyIntL ds = some (digitsToNat ds : Int) := by
  cases ds with
  | nil => simp [pyDecDigitsL] at h
  | cons d r =>
    have hd : d.isDigit = true := by
      simp [pyDecDigitsL] at h
      exact h.1
    have hdm : ¬('-' = d) := by
      intro he
      rw [← he] at hd
      simp [Char.isDigit] at hd
    have hdp : ¬('+' = d) := by
      intro he
      rw [← he] at hd
      simp [Char.isDigit] at hd
    unfold pyIntL
    split
    · next heq => exact absurd (List.head_eq_of_cons_eq heq.symm) hdm
    · next heq => exact absurd (List.head_eq_of_cons_eq heq.symm) hdp
    · simp [h]

theorem all_dropWhile_of_all (p q : Char → Bool) (l : List Char)
    (h : l.all p = true) : (l.dropWhile q).all p = true := by
  induction l with
  | nil => simp
  | cons c t ih =>
    simp only [List.all_cons, Bool.and_eq_true] at h
    by_cases hq : q c
    · rw [List.dropWhile_cons, if_pos hq]
      exact ih h.2
    · rw [List.dropWhile_cons, if_neg hq]
      simp [List.all_cons, h.1, h.2]

theorem all_pyStripL (p : Char → Bool) (l : List Char) (h : l.all p = true) :
    (pyStripL l).all p = true := by
  unfold pyStripL rstripL
  rw [List.all_reverse]
  apply all_dropWhile_of_all
  rw [List.all_reverse]
  exact all_dropWhile_of_all p pySpace l h

theorem pyIntL_of_guard_ascii (w : List Char) (ha : w.all pyAsciiChar = true)
    (h : intTextGuard w = true) : ∃ n, pyIntL w = some n := by
  unfold intTextGuard at h
  simp only [Bool.or_eq_true] at h
  cases h with
  | inl h1 => exact ⟨_, pyIntL_digits w (pyDec_of_isdigits_ascii w ha h1)⟩
  | inr h2 =>
    split at h2
    · next cs r =>
      have har : r.all pyAsciiChar = true := by
        simp only [List.all_cons, Bool.and_eq_true] at ha
        exact ha.2
      exact ⟨-(digitsToNat r : Int),
        by simp [pyIntL, pyDec_of_isdigits_ascii r har h2]⟩
    · simp at h2

theorem parse_int_strip (w : List Char) (hw : pyStripL w = w) :
    parse_int ⟨w⟩ = pyIntL w := by
  unfold parse_int
  rw [show ((⟨w⟩ : String)).data = w from rfl, hw]

theorem parse_bool_of_true (w : List Char) (hw : pyStripL w = w)
    (h : pyLowerL w = ['t', 'r', 'u', 'e']) : parse_bool ⟨w⟩ = true := by
  unfold parse_bool
  rw [show ((⟨w⟩ : String)).data = w from rfl, hw, h]
  rfl

theorem parse_bool_of_false (w : List Char) (hw : pyStripL w = w)
    (h : pyLowerL w = ['f', 'a', 'l', 's', 'e']) : parse_bool ⟨w⟩ = false := by
  unfold parse_bool
  rw [show ((⟨w⟩ : String)).data = w from rfl, hw, h]
  rfl

theorem parse_input_auto_total_aux (s : String)
    (ha : s.data.all pyAsciiChar = true) :
    ∃ v, parse_input s "auto" = some v ∧
      (v.kind = .list ∨ v.kind = .int ∨ v.kind = .bool ∨ v.kind = .str) := by
  rw [parse_input_auto_eq]
  by_cases h1 : (pyStripL s.data).head? = some '['
  · rw [if_pos h1]
    obtain ⟨l, hl⟩ := parse_list_bracket (pyStripL s.data)
      (by rw [pyStripL_idem]; exact h1)
    exact ⟨.vList l, by rw [hl], Or.inl rfl⟩
  · rw [if_neg h1]
    by_cases h2 : intTextGuard (pyStripL s.data) = true
    · rw [if_pos h2]
      obtain ⟨n, hn⟩ := pyIntL_of_guard_ascii _ (all_pyStripL pyAsciiChar s.data ha) h2
      refine ⟨.vInt n, ?_, Or.inr (Or.inl rfl)⟩
      rw [parse_int_strip _ (pyStripL_idem s.data), hn]
      rfl
    · rw [if_neg h2]
      by_cases h3 : boolTextGuard (pyStripL s.data) = true
      · rw [if_pos h3]
        exact ⟨_, rfl, Or.inr (Or.inr (Or.inl rfl))⟩
      · rw [if_neg h3]
        exact ⟨_, rfl, Or.inr (Or.inr (Or.inr rfl))⟩

/-! ## Claim theorems -/

/-- Claim C1 (counterexample): formatting the list `[1,2,3]` does not return
the string `"[1,2,3]"`: `json.dumps` uses the default `", "` separator, so
the code returns `"[1, 2, 3]"`. -/
theorem format_output_list_not_unspaced :
    format_output (.vList [.vInt 1, .vInt 2, .vInt 3]) ≠ "[1,2,3]" := by
  have he : format_output (.vList [.vInt 1, .vInt 2, .vInt 3]) = "[1, 2, 3]" := by
    simp [format_output, json_dumps, dumpElems]
    rfl
  rw [he]
  decide

/-- Claim C1 (amended): `formatOutput` produces canonical text for the basic
value kinds — the ordered sequence `[1,2,3]` formats as `"[1, 2, 3]"`
(bracketed, comma-space separated, the `json.dumps` default), the boolean
`true` formats as the lowercase literal `"true"`, and a null/absent value
formats as the literal `"null"`. -/
theorem format_output_basic_values :
    format_output (.vList [.vInt 1, .vInt 2, .vInt 3]) = "[1, 2, 3]" ∧
    format_output (.vBool true) = "true" ∧
    format_output .vNull = "null" := by
  refine ⟨?_, by simp [format_output], by simp [format_output]⟩
  simp [format_output, json_dumps, dumpElems]
  rfl

/-- Claim C2 (counterexample): on decode failure `parseList` does not split on
top-level commas only; it splits on every comma.  On `"[1, 2"` (which fails
structured decoding) the code returns the two tokens `"[1"` and `"2"`,
whereas the spec's top-level split would keep the single token `"[1, 2"`. -/
theorem parse_list_fallback_splits_nested :
    parse_list "[1, 2" ≠ parse_list_spec "[1, 2" := by
  have h1 : parse_list "[1, 2" = .vList [.vStr "[1", .vStr "2"] := rfl
  have h2 : parse_list_spec "[1, 2" = .vList [.vStr "[1, 2"] := rfl
  rw [h1, h2]
  intro h
  injection h with h3
  injection h3 with h4 _
  injection h4 with h5
  exact absurd h5 (by decide)

/-- Claim C2 (amended): when structured (JSON-like) decoding of the input
text fails, `parseList` falls back to splitting the text on every comma
(commas inside nested brackets are split points too) and returns each
resulting token trimmed, as a string; `parseList("1, 2, 3")` returns the
three strings `"1"`, `"2"`, `"3"`, empty text returns the empty sequence,
and well-formed text such as `"[1,2,3]"` is decoded structurally. -/
theorem parse_list_fallback_flat_split :
    parse_list "1, 2, 3" = .vList [.vStr "1", .vStr "2", .vStr "3"] ∧
    parse_list "" = .vList [] ∧
    parse_list "[1,2,3]" = .vList [.vInt 1, .vInt 2, .vInt 3] ∧
    parse_list "[1, 2" = .vList [.vStr "[1", .vStr "2"] :=
  ⟨rfl, rfl, rfl, rfl⟩

/-- Claim C3: for every level-order sequence with no trailing nulls that
represents a valid tree shape (`okCount 1`: every element corresponds to a
child slot of an earlier non-null node), converting to a tree and
serialising back reproduces the sequence exactly. -/
theorem tree_round_trip (xs : List (Option Int)) (hshape : validShape xs = true)
    (htrail : xs.getLast? ≠ some none) :
    tree_to_list (list_to_tree xs) = xs := by
  match xs with
  | [] => rfl
  | none :: rest =>
    exfalso
    have h0 : okCount 0 rest = true := by
      have h := hshape
      rw [validShape, okCount_cons, if_neg (by omega)] at h
      simpa using h
    have hnil : rest = [] := okCount_zero rest h0
    subst hnil
    exact htrail rfl
  | some v :: rest =>
    have hok2 : okCount 2 rest = true := by
      have h := hshape
      rw [validShape, okCount_cons, if_neg (by omega)] at h
      simpa using h
    have hlen1 : (step [v] rest).length = 1 := by
      rw [length_step]
      rfl
    obtain ⟨t, ht⟩ := list_len_one _ hlen1
    have hltt : list_to_tree (some v :: rest) = some t := by
      simp [list_to_tree, ht]
    rw [hltt]
    have hmb : mergeBack [some v] (step (realsOf [some v]) rest) = [some t] := by
      rw [show realsOf [some v] = [v] from rfl, ht]
      rfl
    have hinv := serQ_mergeBack_step (4 * rest.length + 3) [some v] rest
      (by simp [countSome_cons_some, countSome_nil])
      (by simpa [countSome_cons_some, countSome_nil] using hok2)
    rw [hmb] at hinv
    show trimTrailingNone (serQ [some t]) = some v :: rest
    rw [hinv, trim_append_replicate]
    have htr : ([some v] ++ rest : List (Option Int)).getLast? ≠ some none := htrail
    rw [trim_of_no_trailing _ htr]
    rfl

/-- Claim C3 (witness): the seven-element sequence `[3, 9, 20, null, null,
15, 7]` is reproduced exactly by the round trip. -/
theorem tree_round_trip_witness :
    tree_to_list (list_to_tree [some 3, some 9, some 20, none, none, some 15, some 7])
      = [some 3, some 9, some 20, none, none, some 15, some 7] :=
  tree_round_trip _ (by decide) (by decide)

/-- Claim C4: building a linked list from any finite integer sequence and
flattening it back preserves element order and count exactly. -/
theorem linked_list_round_trip (xs : List Int) :
    linked_list_to_list (list_to_linked_list xs) = xs := by
  induction xs with
  | nil => simp [list_to_linked_list, linked_list_to_list]
  | cons v rest ih => simp [list_to_linked_list, linked_list_to_list, ih]

/-- Claim C5: `parseSignatureLine` splits on commas only at bracket depth
zero, takes each segment's text after the first `=` (the whole segment when
no `=` is present), parses each value with auto detection and discards the
names: the two-sum line yields `[[2,7,11,15], 9]`, array values containing
nested commas survive, and only the first `=` separates name from value. -/
theorem parse_leetcode_input_signature_line :
    parse_leetcode_input "nums = [2,7,11,15], target = 9" =
      some [.vList [.vInt 2, .vInt 7, .vInt 11, .vInt 15], .vInt 9] ∧
    parse_leetcode_input "matrix = [[1,2],[3,4]], k = 5" =
      some [.vList [.vList [.vInt 1, .vInt 2], .vList [.vInt 3, .vInt 4]], .vInt 5] ∧
    parse_leetcode_input "s = a=b" = some [.vStr "a=b"] :=
  ⟨rfl, rfl, rfl⟩

/-- Claim C6 (counterexample): the auto precedence does not hold for every
input string.  The superscript two passes Python's `str.isdigit()` test
("text consisting solely of digits"), yet the integer branch then calls
`int()`, which rejects it and raises a `ValueError` — so `parse_input "²"`
produces no value at all: neither the integer the digit clause predicts nor
the string the otherwise clause predicts. -/
theorem parse_input_auto_superscript_digit :
    pyIsDigitsL (pyStripL "²".data) = true ∧ parse_input "²" "auto" = none :=
  ⟨rfl, rfl⟩

/-- Claim C6 (amended): for every ASCII input string, `parseInput` with the
default `auto` hint applies exactly the precedence list → integer → boolean
→ string: every result is one of those four kinds (never a float, linked
list, or tree), text beginning with `[` parses as a list, digit-only text
(with an optional leading `-`) as an integer, text case-insensitively equal
to `true`/`false` as that boolean, and all other text as the quote-stripped
trimmed string.  (Outside ASCII the precedence can fail: a non-decimal
digit character such as `'²'` passes the digit test but makes the integer
conversion raise, so no value is produced.) -/
theorem parse_input_auto_classification (s : String)
    (ha : s.data.all pyAsciiChar = true) :
    (∃ v, parse_input s "auto" = some v ∧
      (v.kind = .list ∨ v.kind = .int ∨ v.kind = .bool ∨ v.kind = .str)) ∧
    ((pyStripL s.data).head? = some '[' →
      ∃ l, parse_input s "auto" = some (.vList l)) ∧
    ((pyStripL s.data).head? ≠ some '[' → intTextGuard (pyStripL s.data) = true →
      ∃ n, parse_input s "auto" = some (.vInt n)) ∧
    ((pyStripL s.data).head? ≠ some '[' → intTextGuard (pyStripL s.data) = false →
      pyLowerL (pyStripL s.data) = ['t', 'r', 'u', 'e'] →
      parse_input s "auto" = some (.vBool true)) ∧
    ((pyStripL s.data).head? ≠ some '[' → intTextGuard (pyStripL s.data) = false →
      pyLowerL (pyStripL s.data) = ['f', 'a', 'l', 's', 'e'] →
      parse_input s "auto" = some (.vBool false)) ∧
    ((pyStripL s.data).head? ≠ some '[' → intTextGuard (pyStripL s.data) = false →
      boolTextGuard (pyStripL s.data) = false →
      parse_input s "auto" = some (.vStr (parse_string ⟨pyStripL s.data⟩))) := by
  refine ⟨parse_input_auto_total_aux s ha, ?_, ?_, ?_, ?_, ?_⟩
  · intro h1
    rw [parse_input_auto_eq, if_pos h1]
    obtain ⟨l, hl⟩ := parse_list_bracket _ (by rw [pyStripL_idem]; exact h1)
    exact ⟨l, by rw [hl]⟩
  · intro h1 h2
    rw [parse_input_auto_eq, if_neg h1, if_pos h2]
    obtain ⟨n, hn⟩ := pyIntL_of_guard_ascii _ (all_pyStripL pyAsciiChar s.data ha) h2
    exact ⟨n, by rw [parse_int_strip _ (pyStripL_idem s.data), hn]; rfl⟩
  · intro h1 h2 h3
    have hb : boolTextGuard (pyStripL s.data) = true := by
      unfold boolTextGuard
      simp [h3]
    rw [parse_input_auto_eq, if_neg h1, if_neg (by simp [h2]), if_pos hb,
      parse_bool_of_true _ (pyStripL_idem s.data) h3]
  · intro h1 h2 h3
    have hb : boolTextGuard (pyStripL s.data) = true := by
      unfold boolTextGuard
      simp [h3]
    rw [parse_input_auto_eq, if_neg h1, if_neg (by simp [h2]), if_pos hb,
      parse_bool_of_false _ (pyStripL_idem s.data) h3]
  · intro h1 h2 h3
    rw [parse_input_auto_eq, if_neg h1, if_neg (by simp [h2]), if_neg (by simp [h3])]

/-- Claim C6 (witness): the four auto-detection branches at concrete inputs:
`"[1]"` parses as a list, `"-5"` as an integer, `"True"` as the boolean
`true`, and `"abc"` as the string `"abc"`. -/
theorem parse_input_auto_classification_witness :
    (∃ l, parse_input "[1]" "auto" = some (.vList l)) ∧
    (∃ n, parse_input "-5" "auto" = some (.vInt n)) ∧
    parse_input "True" "auto" = some (.vBool true) ∧
    parse_input "abc" "auto" = some (.vStr "abc") :=
  ⟨(parse_input_auto_classification "[1]" (by decide)).2.1 (by decide),
   (parse_input_auto_classification "-5" (by decide)).2.2.1 (by decide) (by decide),
   (parse_input_auto_classification "True" (by decide)).2.2.2.1
     (by decide) (by decide) (by decide),
   (parse_input_auto_classification "abc" (by decide)).2.2.2.2.2
     (by decide) (by decide) (by decide)⟩

/-- Claim C7 (counterexample): a trimmed text consisting of one double-quote
character is not wrapped in a matching pair, so the spec says it is returned
unchanged; the code nevertheless strips it (the same character passes both
the starts-with and ends-with test), returning the empty string. -/
theorem parse_string_single_quote_char :
    parse_string "\"" ≠ parse_string_spec "\"" := by
  decide

/-- Claim C7 (amended): `parseString` trims surrounding whitespace and then,
when the trimmed text both starts and ends with a double quote or both
starts and ends with a single quote (including the one-character text whose
single quote character passes both tests), removes the first and last
characters — so a one-character quote yields the empty string; any other
trimmed text is returned unchanged. -/
theorem parse_string_quote_stripping :
    (∀ s : String,
      (((pyStripL s.data).head? = some '"' ∧ (pyStripL s.data).getLast? = some '"') ∨
        ((pyStripL s.data).head? = some '\'' ∧ (pyStripL s.data).getLast? = some '\'')) →
      parse_string s = ⟨((pyStripL s.data).drop 1).dropLast⟩) ∧
    (∀ s : String,
      ¬(((pyStripL s.data).head? = some '"' ∧ (pyStripL s.data).getLast? = some '"') ∨
        ((pyStripL s.data).head? = some '\'' ∧ (pyStripL s.data).getLast? = some '\'')) →
      parse_string s = ⟨pyStripL s.data⟩) ∧
    parse_string "\"" = "" ∧ parse_string "'" = "" := by
  refine ⟨?_, ?_, rfl, rfl⟩
  · intro s h
    unfold parse_string parse_stringL
    rw [if_pos h]
  · intro s h
    unfold parse_string parse_stringL
    rw [if_neg h]

/-- Claim C7 (witness): a properly wrapped string is stripped of exactly the
outer pair, and an unwrapped string is returned unchanged. -/
theorem parse_string_quote_stripping_witness :
    parse_string "  \"ab\"  " = "ab" ∧ parse_string "xy" = "xy" :=
  ⟨parse_string_quote_stripping.1 "  \"ab\"  " (by decide),
   parse_string_quote_stripping.2.1 "xy" (by decide)⟩

/-- Claim C8: none of the sequence-based converters can fail on a null or
empty input; each returns the designated null/empty result: an empty
sequence gives a null linked list and a null tree, a leading null entry
gives a null tree, and the null linked list and null tree flatten to the
empty sequence. -/
theorem converters_null_empty_behavior :
    list_to_linked_list [] = none ∧
    linked_list_to_list none = [] ∧
    list_to_tree [] = none ∧
    (∀ rest : List (Option Int), list_to_tree (none :: rest) = none) ∧
    tree_to_list none = [] := by
  refine ⟨rfl, ?_, rfl, fun rest => rfl, ?_⟩
  · simp [linked_list_to_list]
  · simp [tree_to_list]

/-- Claim C9 (counterexample): `parseInput` with the default `auto` hint is
not total.  The superscript three passes `str.isdigit()`, so the integer
branch is entered, and there `int()` raises a `ValueError` that propagates
out of `parse_input`: no value is returned. -/
theorem parse_input_auto_superscript_raises :
    parse_input "³" "auto" = none :=
  rfl

/-- Claim C9 (amended): `parseInput` with the default `auto` hint returns a
value for every ASCII input string and never raises a parse error there: on
ASCII text the digit test does guarantee that the integer conversion
succeeds, and the list, boolean, and string branches never fail (the list
parser falls back to a comma split instead of raising).  Totality fails
only where `str.isdigit()` and `int()` disagree, on non-decimal digit
characters outside ASCII. -/
theorem parse_input_auto_total (s : String)
    (ha : s.data.all pyAsciiChar = true) :
    ∃ v, parse_input s "auto" = some v := by
  obtain ⟨v, hv, _⟩ := parse_input_auto_total_aux s ha
  exact ⟨v, hv⟩

/-- Claim C9 (witness): auto parsing of a concrete ASCII digit string
succeeds. -/
theorem parse_input_auto_total_witness :
    ∃ v, parse_input "42" "auto" = some v :=
  parse_input_auto_total "42" (by decide)

/-- Claim C10 (implicit): `parseSignatureLine` treats interior and trailing
empty segments asymmetrically: an interior top-level comma always ends a
segment (an empty one parses as the empty string), while a blank final
segment after the last comma is dropped, and a whitespace-only line yields
the empty sequence: `"1,,2"` yields three values including the empty
string, `"1,2,"` yields two, and `"   "` yields none. -/
theorem parse_leetcode_input_empty_segments :
    parse_leetcode_input "1,,2" = some [.vInt 1, .vStr "", .vInt 2] ∧
    parse_leetcode_input "1,2," = some [.vInt 1, .vInt 2] ∧
    parse_leetcode_input "   " = some [] :=
  ⟨rfl, rfl, rfl⟩
